import Mathlib

/-!
# Student Registration System — verification of the validation / store / controller core

A shallow embedding of `src/script.js`: the validator (`validateForm` and its
regex helpers), the persistence pair (`saveStudents` / `loadStudents`, with a
string-level JSON codec standing in for `JSON.stringify` / `JSON.parse`), the
CRUD operations (`addStudent`, `updateStudent`, `deleteStudent`) and the
edit-session controller state (`editIndex`), together with theorems settling
the specification's claims about them.
-/

namespace StudentReg

/-- One student record: the four text fields collected by the form
(`name`, `studentId`, `email`, `contact`), all strings. -/
structure Record where
  name : String
  studentId : String
  email : String
  contact : String
deriving DecidableEq, Repr

/-- ASCII letter, the `[A-Za-z]` character class. -/
def isAsciiLetter (c : Char) : Bool :=
  (('A' ≤ c) && (c ≤ 'Z')) || (('a' ≤ c) && (c ≤ 'z'))

/-- ASCII decimal digit, the `\d` / `[0-9]` character class. -/
def isAsciiDigit (c : Char) : Bool :=
  ('0' ≤ c) && (c ≤ '9')

/-- The ECMAScript `\s` character class (WhiteSpace ∪ LineTerminator): space,
TAB..CR (`\t`, `\n`, `\v`, `\f`, `\r`), NBSP, U+1680, U+2000..U+200A, the line
separators U+2028/U+2029, U+202F, U+205F, U+3000 and the BOM U+FEFF. The same
set is removed by `String.prototype.trim`. -/
def isJsSpace (c : Char) : Bool :=
  (c = ' ') || (('\t' ≤ c) && (c ≤ '\x0d')) || (c = '\u00A0') || (c = '\u1680') ||
  (('\u2000' ≤ c) && (c ≤ '\u200A')) || (c = '\u2028') || (c = '\u2029') ||
  (c = '\u202F') || (c = '\u205F') || (c = '\u3000') || (c = '\uFEFF')

/-- `str.trim()` on a character list: strip leading and trailing `\s` characters. -/
def jsTrimList (l : List Char) : List Char :=
  ((l.dropWhile isJsSpace).reverse.dropWhile isJsSpace).reverse

/-- `str.trim()`. -/
def jsTrim (s : String) : String :=
  ⟨jsTrimList s.data⟩

/-- `const isLettersOnly = (str) => /^[A-Za-z\s]+$/.test(str.trim())`. -/
def isLettersOnly (s : String) : Bool :=
  let t := jsTrimList s.data
  (!t.isEmpty) && t.all (fun c => isAsciiLetter c || isJsSpace c)

/-- `const isDigitsOnly = (str) => /^\d+$/.test(str)` (no trimming). -/
def isDigitsOnly (s : String) : Bool :=
  (!s.data.isEmpty) && s.data.all isAsciiDigit

/-- A character admitted by the `[^\s@]` class of the email regex. -/
def emailChar (c : Char) : Bool :=
  (!isJsSpace c) && (c ≠ '@')

/-- `const isValidEmail = (str) => /^[^\s@]+@[^\s@]+\.[^\s@]+$/.test(str.trim())`.

The anchored regex matches the trimmed string exactly when it decomposes as
`a ++ '@' ++ b ++ '.' ++ c` with `a`, `b`, `c` nonempty runs of `[^\s@]`
characters.  Since `[^\s@]` excludes `@`, any match splits at the string's
unique `@`; and since `b` and `c` may themselves contain dots, the part after
the `@` merely needs some `.` that is neither its first nor its last
character.  That decomposition is what is computed here. -/
def isValidEmail (s : String) : Bool :=
  let t := jsTrimList s.data
  let beforeAt := t.takeWhile (fun c => c ≠ '@')
  let fromAt := t.dropWhile (fun c => c ≠ '@')
  let afterAt := fromAt.drop 1
  (!beforeAt.isEmpty) && beforeAt.all emailChar &&
  (!fromAt.isEmpty) &&
  (!afterAt.isEmpty) && afterAt.all emailChar &&
  ((afterAt.drop 1).dropLast.contains '.')

/-- `const minDigits = (str, n) => str.replace(/\D/g, "").length >= n`:
at least `n` digit characters among the string's characters. -/
def minDigits (s : String) (n : Nat) : Bool :=
  n ≤ (s.data.filter isAsciiDigit).length

/-- The four per-field error slots (`nameError`, `studentIdError`,
`emailError`, `contactError`); `""` is a cleared slot, which is how
`clearErrors()` leaves all four at the start of every validation call. -/
structure FieldMessages where
  nameError : String := ""
  studentIdError : String := ""
  emailError : String := ""
  contactError : String := ""
deriving DecidableEq, Repr

/-- A slot of the `students` array.  `none` models a missing element (a hole of
a sparse JS array, as created by writing past the end of the array). -/
abbrev Cell := Option Record

/-- `students.findIndex((s, idx) => s.studentId === studentId && idx !== editIndex)`,
with `k` the index of the first listed cell.  Reading `s.studentId` off a hole
throws a `TypeError`, modelled as `Except.error ()`; otherwise the result is
the first index whose record matches and is not the excluded `editIndex`
(`.ok (some idx)`), or `.ok none` when the scan finishes without a match. -/
def findDuplicate (sid : String) (editIndex : Option Nat) : List Cell → Nat → Except Unit (Option Nat)
  | [], _ => .ok none
  | none :: _, _ => .error ()
  | some s :: rest, k =>
      if s.studentId = sid ∧ editIndex ≠ some k then .ok (some k)
      else findDuplicate sid editIndex rest (k + 1)

/-- `validateForm(payload)` of `script.js`: the checks run in their source
order — presence of all four fields (each empty field gets its own message),
name format, student-id format, email format, contact digits-only, contact
minimum length, and finally the duplicate-id scan — stopping at the first
failure.  The result is the returned boolean together with the error slots as
left by the call (`clearErrors()` first, then at most the failing check's
messages); `Except.error ()` is the `TypeError` the duplicate scan throws on a
hole. -/
def validateForm (payload : Record) (students : List Cell) (editIndex : Option Nat) :
    Except Unit (Bool × FieldMessages) :=
  if payload.name = "" ∨ payload.studentId = "" ∨ payload.email = "" ∨ payload.contact = "" then
    .ok (false,
      { nameError := if payload.name = "" then "Name is required." else ""
        studentIdError := if payload.studentId = "" then "Student ID is required." else ""
        emailError := if payload.email = "" then "Email is required." else ""
        contactError := if payload.contact = "" then "Contact number is required." else "" })
  else if ¬ isLettersOnly payload.name then
    .ok (false, { nameError := "Only letters and spaces are allowed." })
  else if ¬ isDigitsOnly payload.studentId then
    .ok (false, { studentIdError := "Student ID must contain digits only." })
  else if ¬ isValidEmail payload.email then
    .ok (false, { emailError := "Please enter a valid email address." })
  else if ¬ isDigitsOnly payload.contact then
    .ok (false, { contactError := "Contact number must contain digits only." })
  else if ¬ minDigits payload.contact 10 then
    .ok (false, { contactError := "Contact number must have at least 10 digits." })
  else
    match findDuplicate payload.studentId editIndex students 0 with
    | .error () => .error ()
    | .ok (some _) => .ok (false, { studentIdError := "This Student ID already exists." })
    | .ok none => .ok (true, {})

/-! ## The persisted JSON layer

`saveStudents` stores `JSON.stringify(students)` under one storage key and
`loadStudents` reads it back through `JSON.parse`, catching any parse error.
Both builtins are modelled at the string level.  Two modelling notes:
JSON numbers are carried exactly as rationals (`Rat`), not as IEEE doubles,
and `\uXXXX` escapes denoting lone surrogates are rejected by the model
parser, since a lone surrogate is not a Unicode scalar value. -/

/-- A parsed JSON value.  Object members are listed in JS property order:
first occurrence of a key fixes its position, a repeated key overwrites the
value in place (see `dedupKeys`). -/
inductive Json where
  | null
  | bool (b : Bool)
  | num (q : Rat)
  | str (s : String)
  | arr (elems : List Json)
  | obj (members : List (String × Json))
deriving Repr

/-- JS `ToBoolean` on a parsed JSON value: `null`, `false`, `0` and `""` are
falsy; every other number and string, and every array or object (empty or
not), is truthy. -/
def jsTruthy : Json → Bool
  | .null => false
  | .bool b => b
  | .num q => decide (q ≠ 0)
  | .str s => decide (s ≠ "")
  | .arr _ => true
  | .obj _ => true

/-- Lowercase hex digit for `n < 16`. -/
def hexChar (n : Nat) : Char :=
  ("0123456789abcdef".data.getD n '0')

/-- `JSON.stringify`'s escaping of one string character: `\"`, `\\`, the
shorthands `\b \t \n \f \r`, `\u00XX` for the other control characters below
U+0020, and every other character verbatim. -/
def escapeChar (c : Char) : List Char :=
  if c = '"' then ['\\', '"']
  else if c = '\\' then ['\\', '\\']
  else if c = '\x08' then ['\\', 'b']
  else if c = '\t' then ['\\', 't']
  else if c = '\n' then ['\\', 'n']
  else if c = '\x0c' then ['\\', 'f']
  else if c = '\x0d' then ['\\', 'r']
  else if c.toNat < 32 then ['\\', 'u', '0', '0', hexChar (c.toNat / 16), hexChar (c.toNat % 16)]
  else [c]

/-- A string serialized as a JSON string literal: quotes around the escaped
characters. -/
def quoteString (s : String) : List Char :=
  '"' :: (s.data.flatMap escapeChar ++ ['"'])

/-- One `"key":"value"` object member. -/
def memberChars (k v : String) : List Char :=
  quoteString k ++ ':' :: quoteString v

/-- `JSON.stringify` of one record object.  The member order is the payload
object literal's insertion order: `name`, `studentId`, `email`, `contact`. -/
def stringifyRecord (r : Record) : List Char :=
  '\x7b' :: (memberChars "name" r.name ++
    ',' :: (memberChars "studentId" r.studentId ++
      ',' :: (memberChars "email" r.email ++
        ',' :: (memberChars "contact" r.contact ++ ['\x7d']))))

/-- `JSON.stringify` of one array slot: a record object, or `null` for a hole
of a sparse array. -/
def stringifyCell : Cell → List Char
  | none => ['n', 'u', 'l', 'l']
  | some r => stringifyRecord r

/-- Comma-join the serialized array elements. -/
def joinComma : List (List Char) → List Char
  | [] => []
  | [x] => x
  | x :: y :: ys => x ++ ',' :: joinComma (y :: ys)

/-- `saveStudents()`: `localStorage.setItem("students", JSON.stringify(students))`.
The produced value, a JSON array of the slots in order. -/
def saveStudents (students : List Cell) : String :=
  ⟨'[' :: (joinComma (students.map stringifyCell) ++ [']'])⟩

/-- JSON's insignificant whitespace characters (space, tab, LF, CR). -/
def isJsonWs (c : Char) : Bool :=
  (c = ' ') || (c = '\t') || (c = '\n') || (c = '\x0d')

/-- Drop leading JSON whitespace. -/
def skipJsonWs (l : List Char) : List Char :=
  l.dropWhile isJsonWs

/-- Value of one hex digit (both cases), `none` for a non-hex character. -/
def hexDigitVal (c : Char) : Option Nat :=
  if ('0' ≤ c) && (c ≤ '9') then some (c.toNat - 48)
  else if ('a' ≤ c) && (c ≤ 'f') then some (c.toNat - 87)
  else if ('A' ≤ c) && (c ≤ 'F') then some (c.toNat - 55)
  else none

/-- Value of a four-hex-digit group, as in `\uXXXX`. -/
def hexQuad (a b c d : Char) : Option Nat :=
  (hexDigitVal a).bind fun va =>
    (hexDigitVal b).bind fun vb =>
      (hexDigitVal c).bind fun vc =>
        (hexDigitVal d).map fun vd => ((va * 16 + vb) * 16 + vc) * 16 + vd

/-- The single-character escapes a JSON string literal may contain. -/
def unescapeChar (e : Char) : Option Char :=
  if e = '"' then some '"'
  else if e = '\\' then some '\\'
  else if e = '/' then some '/'
  else if e = 'b' then some '\x08'
  else if e = 'f' then some '\x0c'
  else if e = 'n' then some '\n'
  else if e = 'r' then some '\x0d'
  else if e = 't' then some '\t'
  else none

/-- After a high surrogate `n`, decode the mandatory `\uXXXX` low surrogate
and combine the pair into one supplementary-plane character. -/
def decodeSurrogatePair (n : Nat) : List Char → Option (Char × List Char)
  | b1 :: u1 :: g1 :: g2 :: g3 :: g4 :: r3 =>
    if b1 = '\\' ∧ u1 = 'u' then
      match hexQuad g1 g2 g3 g4 with
      | none => none
      | some m =>
        if 0xDC00 ≤ m ∧ m ≤ 0xDFFF then
          some (Char.ofNat (0x10000 + (n - 0xD800) * 0x400 + (m - 0xDC00)), r3)
        else none
    else none
  | _ => none

/-- Decode the four hex digits of a `\uXXXX` escape: a plain scalar, or a
high surrogate followed by its low surrogate; a lone surrogate is rejected
(modelling note above). -/
def decodeUnicodeEscape : List Char → Option (Char × List Char)
  | h1 :: h2 :: h3 :: h4 :: r2 =>
    (match hexQuad h1 h2 h3 h4 with
     | none => none
     | some n =>
       if n < 0xD800 ∨ 0xDFFF < n then some (Char.ofNat n, r2)
       else if n ≤ 0xDBFF then decodeSurrogatePair n r2
       else none)
  | _ => none

/-- Decode what follows a backslash inside a JSON string literal. -/
def decodeEscape : List Char → Option (Char × List Char)
  | [] => none
  | e :: r =>
    if e = 'u' then decodeUnicodeEscape r
    else (unescapeChar e).map fun d => (d, r)

/-- Parse the body of a JSON string literal, after the opening quote:
characters accumulate (reversed) in `acc` until the closing quote.  Raw
control characters are rejected; escapes go through `decodeEscape`.  `fuel`
only forces totality: every step consumes at least one input character, so
the `length + 1` the call sites pass is never exhausted. -/
def parseStringBody : Nat → List Char → List Char → Option (String × List Char)
  | 0, _, _ => none
  | _ + 1, _, [] => none
  | fuel + 1, acc, c :: rest =>
    if c = '"' then some (⟨acc.reverse⟩, rest)
    else if c = '\\' then
      match decodeEscape rest with
      | some p => parseStringBody fuel (p.1 :: acc) p.2
      | none => none
    else if c.toNat < 32 then none
    else parseStringBody fuel (c :: acc) rest

/-- Decimal value of a digit run. -/
def digitsToNat (ds : List Char) : Nat :=
  ds.foldl (fun a c => a * 10 + (c.toNat - 48)) 0

/-- The optional fraction part: after `.` at least one digit is required;
returns the fraction digits (possibly none when there is no `.`). -/
def parseFrac : List Char → Option (List Char × List Char)
  | '.' :: r =>
    let ds := r.takeWhile isAsciiDigit
    if ds.isEmpty then none else some (ds, r.dropWhile isAsciiDigit)
  | l => some ([], l)

/-- The optional exponent part: `e`/`E`, an optional sign, then at least one
digit; `0` when absent. -/
def parseExponent : List Char → Option (Int × List Char)
  | 'e' :: r =>
    let sr : Int × List Char := match r with
      | '+' :: r2 => (1, r2)
      | '-' :: r2 => (-1, r2)
      | _ => (1, r)
    let ds := sr.2.takeWhile isAsciiDigit
    if ds.isEmpty then none else some (sr.1 * (digitsToNat ds : Int), sr.2.dropWhile isAsciiDigit)
  | 'E' :: r =>
    let sr : Int × List Char := match r with
      | '+' :: r2 => (1, r2)
      | '-' :: r2 => (-1, r2)
      | _ => (1, r)
    let ds := sr.2.takeWhile isAsciiDigit
    if ds.isEmpty then none else some (sr.1 * (digitsToNat ds : Int), sr.2.dropWhile isAsciiDigit)
  | l => some (0, l)

/-- Assemble sign, integer part, fraction digits and exponent into the exact
rational the literal denotes. -/
def mkJsonNum (neg : Bool) (ip : Nat) (fds : List Char) (ex : Int) : Rat :=
  let mantNat : Nat := ip * 10 ^ fds.length + digitsToNat fds
  let mant : Int := if neg then -(mantNat : Int) else (mantNat : Int)
  (mant : Rat) * (10 : Rat) ^ (ex - (fds.length : Int))

/-- Parse a JSON number literal: optional minus, an integer part with no
leading zero (`0`, or a nonzero digit followed by digits), then the optional
fraction and exponent parts. -/
def parseNumber (l : List Char) : Option (Rat × List Char) :=
  let nl : Bool × List Char := match l with
    | '-' :: r => (true, r)
    | _ => (false, l)
  match nl.2 with
  | '0' :: cs =>
    (parseFrac cs).bind fun fp =>
      (parseExponent fp.2).map fun ep => (mkJsonNum nl.1 0 fp.1 ep.1, ep.2)
  | c :: cs =>
    if isAsciiDigit c then
      let ds := cs.takeWhile isAsciiDigit
      let l2 := cs.dropWhile isAsciiDigit
      (parseFrac l2).bind fun fp =>
        (parseExponent fp.2).map fun ep =>
          (mkJsonNum nl.1 (digitsToNat (c :: ds)) fp.1 ep.1, ep.2)
    else none
  | [] => none

/-- Overwrite the value of `k` in place if present, else append the member:
JS object-literal insertion semantics for one `key : value` pair. -/
def upsertKey (k : String) (v : Json) : List (String × Json) → List (String × Json)
  | [] => [(k, v)]
  | (k0, v0) :: t => if k0 = k then (k0, v) :: t else (k0, v0) :: upsertKey k v t

/-- Collapse repeated object keys: first occurrence fixes the position, last
occurrence supplies the value, as when JS builds the object while parsing. -/
def dedupKeys (ms : List (String × Json)) : List (String × Json) :=
  ms.foldl (fun acc kv => upsertKey kv.1 kv.2 acc) []

mutual

/-- Parse one JSON value: leading whitespace, then a literal, string, array,
object or number.  `fuel` bounds the recursion; `jsonParse` passes enough
that the bound is never the reason a parse fails. -/
def parseValue : Nat → List Char → Option (Json × List Char)
  | 0, _ => none
  | fuel + 1, l =>
    match skipJsonWs l with
    | 'n' :: 'u' :: 'l' :: 'l' :: r => some (Json.null, r)
    | 't' :: 'r' :: 'u' :: 'e' :: r => some (Json.bool true, r)
    | 'f' :: 'a' :: 'l' :: 's' :: 'e' :: r => some (Json.bool false, r)
    | '"' :: r => (parseStringBody (r.length + 1) [] r).map fun p => (Json.str p.1, p.2)
    | '[' :: r =>
      (match skipJsonWs r with
       | ']' :: r2 => some (Json.arr [], r2)
       | r2 => (parseItems fuel r2).map fun p => (Json.arr p.1, p.2))
    | '\x7b' :: r =>
      (match skipJsonWs r with
       | '\x7d' :: r2 => some (Json.obj [], r2)
       | r2 => (parsePairs fuel r2).map fun p => (Json.obj (dedupKeys p.1), p.2))
    | l2 => (parseNumber l2).map fun p => (Json.num p.1, p.2)

/-- Parse the elements of a nonempty array, up to and including the `]`. -/
def parseItems : Nat → List Char → Option (List Json × List Char)
  | 0, _ => none
  | fuel + 1, l =>
    (parseValue fuel l).bind fun p =>
      match skipJsonWs p.2 with
      | ',' :: r2 => (parseItems fuel r2).map fun q => (p.1 :: q.1, q.2)
      | ']' :: r2 => some ([p.1], r2)
      | _ => none

/-- Parse the members of a nonempty object, up to and including the `}`. -/
def parsePairs : Nat → List Char → Option (List (String × Json) × List Char)
  | 0, _ => none
  | fuel + 1, l =>
    match skipJsonWs l with
    | '"' :: r =>
      (parseStringBody (r.length + 1) [] r).bind fun kp =>
        match skipJsonWs kp.2 with
        | ':' :: r2 =>
          (parseValue fuel r2).bind fun p =>
            match skipJsonWs p.2 with
            | ',' :: r3 => (parsePairs fuel r3).map fun q => ((kp.1, p.1) :: q.1, q.2)
            | '\x7d' :: r3 => some ([(kp.1, p.1)], r3)
            | _ => none
        | _ => none
    | _ => none

end

/-- `JSON.parse(s)`: parse one value and require only whitespace after it.
Along any run over an input of length `len`, consecutive recursive calls
consume at least one character every two fuel decrements, so the fuel
`2 * len + 2` is never exhausted and failure means the input is not JSON. -/
def jsonParse (s : String) : Option Json :=
  match parseValue (2 * s.data.length + 2) s.data with
  | some (v, r) => if (skipJsonWs r).isEmpty then some v else none
  | none => none

/-- `loadStudents()`: `try { return JSON.parse(localStorage.getItem("students")) || [] } catch { return [] }`.
With no stored value, `getItem` yields `null`, which `JSON.parse` coerces to
the string `"null"` and parses to the falsy `null`, so `[]` results; a thrown
parse error is caught to `[]`; a parsed falsy value falls to `[]` through
`|| []`; any truthy parsed value is returned as is. -/
def loadStudents (stored : Option String) : Json :=
  match stored with
  | none => Json.arr []
  | some s =>
    match jsonParse s with
    | none => Json.arr []
    | some v => if jsTruthy v then v else Json.arr []

/-- The JSON value `JSON.stringify`/`JSON.parse` associate with a record. -/
def recordJson (r : Record) : Json :=
  Json.obj [("name", Json.str r.name), ("studentId", Json.str r.studentId),
            ("email", Json.str r.email), ("contact", Json.str r.contact)]

/-- Read a record back off its JSON object form. -/
def decodeRecord : Json → Option Record
  | Json.obj [("name", Json.str n), ("studentId", Json.str i),
              ("email", Json.str e), ("contact", Json.str c)] =>
    some { name := n, studentId := i, email := e, contact := c }
  | _ => none

/-- Read the whole sequence back off its JSON array form. -/
def decodeStudents : Json → Option (List Record)
  | Json.arr es => es.mapM decodeRecord
  | _ => none

/-! ## App state and the controller -/

/-- The app state: the `students` array (with possible holes), the
`editIndex` edit-session variable (`null`, i.e. `none`, when adding) and the
persisted storage slot (`none` when the key was never written). -/
structure AppState where
  students : List Cell
  editIndex : Option Nat
  storage : Option String
deriving DecidableEq, Repr

/-- JS `arr[i] = v`: overwrite in bounds; at or past the length, extend the
array, padding any skipped slots with holes. -/
def jsArraySet (l : List Cell) (i : Nat) (v : Cell) : List Cell :=
  if i < l.length then l.set i v
  else l ++ List.replicate (i - l.length) none ++ [v]

/-- `addStudent(payload)`: push onto the array, then persist. -/
def addStudent (st : AppState) (p : Record) : AppState :=
  let students := st.students ++ [some p]
  { students := students, editIndex := st.editIndex,
    storage := some (saveStudents students) }

/-- `updateStudent(payload)`: no-op without an active edit session; otherwise
write the payload at `editIndex`, persist, and reset the edit state
(`resetEditState` sets `editIndex` back to `null`). -/
def updateStudent (st : AppState) (p : Record) : AppState :=
  match st.editIndex with
  | none => st
  | some i =>
    let students := jsArraySet st.students i (some p)
    { students := students, editIndex := none,
      storage := some (saveStudents students) }

/-- `deleteStudent(index)` once the user has confirmed: splice the slot out
and persist.  `editIndex` is not touched. -/
def deleteStudent (st : AppState) (i : Nat) : AppState :=
  let students := st.students.eraseIdx i
  { students := students, editIndex := st.editIndex,
    storage := some (saveStudents students) }

/-- The candidate record a submit/update handler builds from the form: each
input's value, trimmed. -/
def buildPayload (nameV sidV emailV contactV : String) : Record :=
  { name := jsTrim nameV, studentId := jsTrim sidV,
    email := jsTrim emailV, contact := jsTrim contactV }

/-- The body of the form submit handler, after the payload is built:
`if (!validateForm(payload)) return; addStudent(payload);`.  A thrown
validation error also leaves the handler without mutating anything. -/
def submitAddStep (st : AppState) (p : Record) : AppState :=
  match validateForm p st.students st.editIndex with
  | .ok (true, _) => addStudent st p
  | _ => st

/-- The body of the Update button handler, after the payload is built:
`if (!validateForm(payload)) return; updateStudent(payload);`. -/
def clickUpdateStep (st : AppState) (p : Record) : AppState :=
  match validateForm p st.students st.editIndex with
  | .ok (true, _) => updateStudent st p
  | _ => st

/-- One user-triggered controller event, carrying the form contents or the
rendered row index it acts on. -/
inductive Action where
  | submitAdd (nameV sidV emailV contactV : String)
  | clickUpdate (nameV sidV emailV contactV : String)
  | startEdit (i : Nat)
  | cancelEdit
  | deleteConfirmed (i : Nat)

/-- One controller transition.  `startEdit` and `deleteConfirmed` carry a row
index of the rendered table, so they fire only on indices holding a present
record; the Add submit fires in add mode (during an edit session the
Update/Cancel buttons replace the Add button).  Cancelled delete dialogs and
re-renders leave the state unchanged and need no transition. -/
def step (st : AppState) : Action → AppState
  | .submitAdd n s e c =>
    if st.editIndex = none then submitAddStep st (buildPayload n s e c) else st
  | .clickUpdate n s e c => clickUpdateStep st (buildPayload n s e c)
  | .startEdit i =>
    match st.students.get? i with
    | some (some _) => { st with editIndex := some i }
    | _ => st
  | .cancelEdit => { st with editIndex := none }
  | .deleteConfirmed i =>
    match st.students.get? i with
    | some (some _) => deleteStudent st i
    | _ => st

/-- The page opened on an empty collection and nothing is persisted yet. -/
def initState : AppState :=
  { students := [], editIndex := none, storage := none }

/-- The states the controller can reach from the empty collection by any
sequence of user events. -/
inductive Reachable : AppState → Prop where
  | init : Reachable initState
  | next : ∀ {st : AppState} (a : Action), Reachable st → Reachable (step st a)

/-- No two records of the array carry the same `studentId`: any two distinct
positions holding present records hold different identifiers. -/
def distinctIds (l : List Cell) : Prop :=
  ∀ i j (hi : i < l.length) (hj : j < l.length), i ≠ j →
    ∀ s t, l[i] = some s → l[j] = some t → s.studentId ≠ t.studentId

/-- The six per-field checks of `validateForm`, bundled: all four fields
present, name letters-and-spaces, student id digits, email shaped, contact
digits with at least ten of them.  When these hold the only remaining gate is
the duplicate-identifier scan. -/
abbrev fieldChecksPass (p : Record) : Prop :=
  ¬ (p.name = "" ∨ p.studentId = "" ∨ p.email = "" ∨ p.contact = "") ∧
  isLettersOnly p.name = true ∧ isDigitsOnly p.studentId = true ∧
  isValidEmail p.email = true ∧ isDigitsOnly p.contact = true ∧
  minDigits p.contact 10 = true

/-- Sample records for the concrete checks (the specification's scenario data). -/
def annLee : Record :=
  { name := "Ann Lee", studentId := "1001", email := "a@b.com", contact := "5551234567" }

/-- A second sample record with a distinct identifier. -/
def boLi : Record :=
  { name := "Bo Li", studentId := "1002", email := "b@c.de", contact := "0123456789" }

/-- The state after adding the two sample records, starting to edit the first,
and then deleting it (confirmed): the edit target survives the delete. -/
def staleEditState : AppState :=
  step (step (step (step initState
    (Action.submitAdd "Ann Lee" "1001" "a@b.com" "5551234567"))
    (Action.submitAdd "Bo Li" "1002" "b@c.de" "0123456789"))
    (Action.startEdit 0))
    (Action.deleteConfirmed 0)

/-- A small concrete state holding the two sample records, idle. -/
def twoRecordState : AppState :=
  { students := [some annLee, some boLi], editIndex := none, storage := none }

/-! ## Helper lemmas: the duplicate-identifier scan -/

/-- When the scan finishes cleanly (`.ok none`), every slot holds a present
record whose identifier differs from the probed one, unless the slot is the
excluded `editIndex`. -/
theorem findDuplicate_none_spec (sid : String) (eIdx : Option Nat) :
    ∀ (l : List Cell) (k : Nat), findDuplicate sid eIdx l k = .ok none →
      ∀ j (hj : j < l.length), ∃ s, l[j] = some s ∧
        (s.studentId ≠ sid ∨ eIdx = some (k + j))
  | [], _, _, j, hj => absurd hj (by simp)
  | none :: _, k, h, _, _ => by simp [findDuplicate] at h
  | some s :: rest, k, h, j, hj => by
    rw [findDuplicate] at h
    split at h
    · cases h
    · rename_i hcond
      cases j with
      | zero =>
        refine ⟨s, rfl, ?_⟩
        rcases Decidable.not_and_iff_or_not.mp hcond with h1 | h2
        · exact Or.inl h1
        · exact Or.inr (by simpa using h2)
      | succ j =>
        obtain ⟨t, ht, hor⟩ :=
          findDuplicate_none_spec sid eIdx rest (k + 1) h j (by simpa using hj)
        exact ⟨t, by simpa using ht, by
          rcases hor with h1 | h1
          · exact Or.inl h1
          · exact Or.inr (by rw [h1]; congr 1; omega)⟩

/-- Conversely, the scan finishes cleanly when every slot holds a present
record that either misses the probed identifier or sits at the excluded
`editIndex`. -/
theorem findDuplicate_none_of (sid : String) (eIdx : Option Nat) :
    ∀ (l : List Cell) (k : Nat),
      (∀ j (hj : j < l.length), ∃ s, l[j] = some s ∧
        (s.studentId ≠ sid ∨ eIdx = some (k + j))) →
      findDuplicate sid eIdx l k = .ok none
  | [], _, _ => rfl
  | none :: _, k, h => by
    obtain ⟨s, hs, _⟩ := h 0 (by simp)
    simp at hs
  | some s :: rest, k, h => by
    rw [findDuplicate]
    obtain ⟨t, ht, hor⟩ := h 0 (by simp)
    have hst : s = t := by simpa using ht
    rw [if_neg]
    · refine findDuplicate_none_of sid eIdx rest (k + 1) fun j hj => ?_
      obtain ⟨u, hu, hor2⟩ := h (j + 1) (by simpa using hj)
      exact ⟨u, by simpa using hu, by
        rcases hor2 with h1 | h1
        · exact Or.inl h1
        · exact Or.inr (by rw [h1]; congr 1; omega)⟩
    · subst hst
      rcases hor with h1 | h1
      · exact fun hc => h1 hc.1
      · exact fun hc => hc.2 (by simpa using h1)

/-- When every slot is a present record and some slot other than the excluded
`editIndex` carries the probed identifier, the scan reports a duplicate. -/
theorem findDuplicate_finds (sid : String) (eIdx : Option Nat) :
    ∀ (l : List Cell) (k : Nat), (∀ c ∈ l, c ≠ none) →
      (∃ j, ∃ (hj : j < l.length), ∃ s, l[j] = some s ∧
        s.studentId = sid ∧ eIdx ≠ some (k + j)) →
      ∃ i, findDuplicate sid eIdx l k = .ok (some i)
  | [], _, _, hex => by
    obtain ⟨j, hj, _⟩ := hex
    exact absurd hj (by simp)
  | none :: rest, k, hall, hex => absurd rfl (hall none (by simp))
  | some s :: rest, k, hall, hex => by
    rw [findDuplicate]
    split
    · exact ⟨k, rfl⟩
    · rename_i hcond
      refine findDuplicate_finds sid eIdx rest (k + 1) (fun c hc => hall c (by simp [hc])) ?_
      obtain ⟨j, hj, t, ht, hts, hte⟩ := hex
      cases j with
      | zero =>
        exfalso
        have hst : s = t := by simpa using ht
        exact hcond ⟨hst ▸ hts, by simpa using hte⟩
      | succ j =>
        exact ⟨j, by simpa using hj, t, by simpa using ht, hts, by
          intro hc
          exact hte (by rw [hc]; congr 1; omega)⟩

/-! ## Helper lemmas: unfolding `validateForm` -/

/-- With all six field checks passing, validation reduces to the
duplicate-identifier scan. -/
theorem validateForm_fieldChecks (p : Record) (l : List Cell) (e : Option Nat)
    (h : fieldChecksPass p) :
    validateForm p l e =
      match findDuplicate p.studentId e l 0 with
      | .error () => .error ()
      | .ok (some _) => .ok (false, { studentIdError := "This Student ID already exists." })
      | .ok none => .ok (true, {}) := by
  obtain ⟨h1, h2, h3, h4, h5, h6⟩ := h
  rw [validateForm, if_neg h1, if_neg (by simp [h2]), if_neg (by simp [h3]),
    if_neg (by simp [h4]), if_neg (by simp [h5]), if_neg (by simp [h6])]

/-- A `true` verdict certifies the six field checks and a clean scan, and
carries no error message. -/
theorem validateForm_ok_true_inv (p : Record) (l : List Cell) (e : Option Nat)
    (m : FieldMessages) (h : validateForm p l e = .ok (true, m)) :
    fieldChecksPass p ∧ m = {} ∧ findDuplicate p.studentId e l 0 = .ok none := by
  rw [validateForm] at h
  split at h
  · simp at h
  rename_i h1
  split at h
  · simp at h
  rename_i h2
  split at h
  · simp at h
  rename_i h3
  split at h
  · simp at h
  rename_i h4
  split at h
  · simp at h
  rename_i h5
  split at h
  · simp at h
  rename_i h6
  split at h
  · simp at h
  · simp at h
  · rename_i hscan
    refine ⟨⟨h1, not_not.mp h2, not_not.mp h3, not_not.mp h4, not_not.mp h5, not_not.mp h6⟩,
      ?_, hscan⟩
    have := h.symm
    simp only [Except.ok.injEq, Prod.mk.injEq] at this
    exact this.2

/-! ## Helper lemmas: preservation of identifier distinctness -/

/-- The empty array has distinct identifiers. -/
theorem distinctIds_nil : distinctIds [] := by
  intro i j hi
  exact absurd hi (by simp)

/-- Appending a record whose identifier is fresh preserves distinctness. -/
theorem distinctIds_append (l : List Cell) (p : Record) (hd : distinctIds l)
    (hfresh : ∀ j (hj : j < l.length) s, l[j] = some s → s.studentId ≠ p.studentId) :
    distinctIds (l ++ [some p]) := by
  intro i j hi hj hne s t hs ht
  rw [List.length_append, List.length_singleton] at hi hj
  by_cases hil : i < l.length
  · rw [List.getElem_append_left hil] at hs
    by_cases hjl : j < l.length
    · rw [List.getElem_append_left hjl] at ht
      exact hd i j hil hjl hne s t hs ht
    · have hj1 : j = l.length := by omega
      rw [List.getElem_append_right (by omega)] at ht
      have htp : t = p := by
        subst hj1
        simpa using ht.symm
      subst htp
      exact hfresh i hil s hs
  · have hi1 : i = l.length := by omega
    rw [List.getElem_append_right (by omega)] at hs
    have hsp : s = p := by
      subst hi1
      simpa using hs.symm
    subst hsp
    by_cases hjl : j < l.length
    · rw [List.getElem_append_left hjl] at ht
      exact fun hc => hfresh j hjl t ht hc.symm
    · omega

/-- Overwriting the slot `i0` in bounds preserves distinctness when no other
slot carries the written record's identifier. -/
theorem distinctIds_set (l : List Cell) (i0 : Nat) (p : Record) (hd : distinctIds l)
    (hfresh : ∀ j (hj : j < l.length), j ≠ i0 → ∀ s, l[j] = some s → s.studentId ≠ p.studentId) :
    distinctIds (l.set i0 (some p)) := by
  intro i j hi hj hne s t hs ht
  rw [List.length_set] at hi hj
  rw [List.getElem_set] at hs ht
  by_cases hii : i0 = i
  · rw [if_pos hii] at hs
    rw [if_neg (by omega)] at ht
    cases hs
    subst hii
    exact fun hc => hfresh j hj (by omega) t ht hc.symm
  · rw [if_neg hii] at hs
    by_cases hjj : i0 = j
    · rw [if_pos hjj] at ht
      cases ht
      subst hjj
      exact hfresh i hi (by omega) s hs
    · rw [if_neg hjj] at ht
      exact hd i j hi hj hne s t hs ht

/-- Writing past the end (hole padding, then the record) preserves
distinctness when no existing slot carries the written identifier. -/
theorem distinctIds_extend (l : List Cell) (i0 : Nat) (p : Record) (hlen : l.length ≤ i0)
    (hd : distinctIds l)
    (hfresh : ∀ j (hj : j < l.length) s, l[j] = some s → s.studentId ≠ p.studentId) :
    distinctIds (l ++ List.replicate (i0 - l.length) none ++ [some p]) := by
  intro i j hi hj hne s t hs ht
  rw [List.length_append, List.length_append, List.length_replicate,
    List.length_singleton] at hi hj
  have hmidlen : (l ++ List.replicate (i0 - l.length) none).length = i0 := by
    simp
    omega
  have hchar : ∀ a, a < i0 + 1 → ∀ u, ∀ (hb : a < (l ++ List.replicate (i0 - l.length) none ++ [some p]).length),
      (l ++ List.replicate (i0 - l.length) none ++ [some p])[a] = some u →
      (∃ (hal : a < l.length), l[a] = some u) ∨ (a = i0 ∧ u = p) := by
    intro a ha u hb hu
    by_cases hal : a < i0
    · rw [List.getElem_append_left (by omega)] at hu
      by_cases hal2 : a < l.length
      · rw [List.getElem_append_left hal2] at hu
        exact Or.inl ⟨hal2, hu⟩
      · rw [List.getElem_append_right (by omega)] at hu
        rw [List.getElem_replicate] at hu
        cases hu
    · have ha0 : a = i0 := by omega
      rw [List.getElem_append_right (by omega)] at hu
      rw [List.getElem_singleton] at hu
      cases hu
      exact Or.inr ⟨ha0, rfl⟩
  rcases hchar i (by omega) s (by simp; omega) hs with ⟨hil, hsl⟩ | ⟨hii, hsp⟩
  · rcases hchar j (by omega) t (by simp; omega) ht with ⟨hjl, htl⟩ | ⟨hjj, htp⟩
    · exact hd i j hil hjl hne s t hsl htl
    · subst htp
      exact hfresh i hil s hsl
  · subst hsp
    rcases hchar j (by omega) t (by simp; omega) ht with ⟨hjl, htl⟩ | ⟨hjj, htp⟩
    · exact fun hc => hfresh j hjl t htl hc.symm
    · omega

/-- Deleting a slot preserves distinctness. -/
theorem distinctIds_eraseIdx (l : List Cell) (i0 : Nat) (hd : distinctIds l) :
    distinctIds (l.eraseIdx i0) := by
  by_cases hlt : i0 < l.length
  · intro i j hi hj hne s t hs ht
    have hlen : (l.eraseIdx i0).length = l.length - 1 := by
      rw [List.length_eraseIdx, if_pos hlt]
    rw [List.getElem_eraseIdx] at hs ht
    split at hs <;> split at ht
    · exact hd i j (by omega) (by omega) hne s t hs ht
    · exact hd i (j + 1) (by omega) (by omega) (by omega) s t hs ht
    · exact hd (i + 1) j (by omega) (by omega) (by omega) s t hs ht
    · exact hd (i + 1) (j + 1) (by omega) (by omega) (by omega) s t hs ht
  · rw [List.eraseIdx_of_length_le (by omega)]
    exact hd

/-- One controller transition preserves identifier distinctness. -/
theorem distinctIds_step (st : AppState) (a : Action)
    (hd : distinctIds st.students) : distinctIds (step st a).students := by
  cases a with
  | submitAdd n s e c =>
    rw [step]
    split
    · rename_i hidle
      rw [submitAddStep]
      split
      · rename_i m heq
        obtain ⟨_, _, hscan⟩ := validateForm_ok_true_inv _ _ _ _ heq
        rw [addStudent]
        refine distinctIds_append _ _ hd fun j hj s2 hs2 => ?_
        obtain ⟨t, ht, hor⟩ := findDuplicate_none_spec _ _ _ _ hscan j hj
        rw [hs2] at ht
        cases ht
        rcases hor with h1 | h1
        · exact h1
        · rw [hidle] at h1
          cases h1
      · exact hd
    · exact hd
  | clickUpdate n s e c =>
    rw [step, clickUpdateStep]
    split
    · rename_i m heq
      obtain ⟨_, _, hscan⟩ := validateForm_ok_true_inv _ _ _ _ heq
      rw [updateStudent]
      cases hei : st.editIndex with
      | none => exact hd
      | some i0 =>
        rw [hei] at hscan
        simp only
        rw [jsArraySet]
        split
        · rename_i hlt
          refine distinctIds_set _ _ _ hd fun j hj hne s2 hs2 => ?_
          obtain ⟨t, ht, hor⟩ := findDuplicate_none_spec _ _ _ _ hscan j hj
          rw [hs2] at ht
          cases ht
          rcases hor with h1 | h1
          · exact h1
          · exfalso
            apply hne
            have : i0 = 0 + j := by
              simpa using h1
            omega
        · rename_i hge
          refine distinctIds_extend _ _ _ (by omega) hd fun j hj s2 hs2 => ?_
          obtain ⟨t, ht, hor⟩ := findDuplicate_none_spec _ _ _ _ hscan j hj
          rw [hs2] at ht
          cases ht
          rcases hor with h1 | h1
          · exact h1
          · exfalso
            have : i0 = 0 + j := by
              simpa using h1
            omega
    · exact hd
  | startEdit i =>
    rw [step]
    split
    · exact hd
    · exact hd
  | cancelEdit => exact hd
  | deleteConfirmed i =>
    rw [step]
    split
    · exact distinctIds_eraseIdx _ _ hd
    · exact hd

/-! ## Claim theorems (first group) -/

/-- **C1.** In every reachable state of the store — starting from the empty
collection and applying any sequence of validated adds, commit-edits and
confirmed deletes (with the edit-session events around them) — no two records
of the collection share a `studentId`; in particular, a candidate that passes
validation and is inserted leaves the post-insert collection with
pairwise-distinct identifiers. -/
theorem c1_reachable_identifiers_distinct (st : AppState) (h : Reachable st) :
    distinctIds st.students := by
  induction h with
  | init => exact distinctIds_nil
  | next a _ ih => exact distinctIds_step _ a ih

/-- Concrete instance of C1: after two validated adds the identifiers are
pairwise distinct. -/
theorem c1_witness :
    distinctIds ((step (step initState
      (Action.submitAdd "Ann Lee" "1001" "a@b.com" "5551234567"))
      (Action.submitAdd "Bo Li" "1002" "b@c.de" "0123456789")).students) :=
  c1_reachable_identifiers_distinct _
    (Reachable.next _ (Reachable.next _ Reachable.init))

/-- **C3.** A missing stored value loads as the empty collection, and so does
any stored string the parser rejects; in the model `loadStudents` is total,
so no error reaches the caller. -/
theorem c3_load_degrades_to_empty :
    loadStudents none = Json.arr [] ∧
    ∀ s : String, jsonParse s = none → loadStudents (some s) = Json.arr [] := by
  refine ⟨rfl, fun s h => ?_⟩
  simp only [loadStudents, h]

/-- Concrete instance of C3: non-JSON text loads as the empty collection. -/
theorem c3_witness :
    jsonParse "corrupted persisted text" = none ∧
    loadStudents (some "corrupted persisted text") = Json.arr [] := by
  have h : jsonParse "corrupted persisted text" = none := by rfl
  exact ⟨h, c3_load_degrades_to_empty.2 _ h⟩

/-- **C6.** The confirmed delete at a valid position `i` shortens the
collection by one, keeps the records before `i` at their positions, shifts
the positions of the records after `i` down by one (hence keeps the others in
their original relative order), and persists the result. -/
theorem c6_delete_shifts_down (st : AppState) (i : Nat) (hi : i < st.students.length) :
    (deleteStudent st i).students.length = st.students.length - 1 ∧
    (∀ j, j < i → (deleteStudent st i).students[j]? = st.students[j]?) ∧
    (∀ j, i ≤ j → (deleteStudent st i).students[j]? = st.students[j + 1]?) ∧
    (deleteStudent st i).storage = some (saveStudents (deleteStudent st i).students) := by
  refine ⟨?_, ?_, ?_, rfl⟩
  · simp [deleteStudent, List.length_eraseIdx, hi]
  · intro j hj
    simp [deleteStudent, List.getElem?_eraseIdx, hj]
  · intro j hj
    simp [deleteStudent, List.getElem?_eraseIdx, Nat.not_lt.mpr hj]

/-- Concrete instance of C6: deleting position 0 of a two-record collection
moves the second record to position 0. -/
theorem c6_witness :
    0 < twoRecordState.students.length ∧
    (deleteStudent twoRecordState 0).students[0]? = twoRecordState.students[0 + 1]? :=
  ⟨by decide, (c6_delete_shifts_down twoRecordState 0 (by decide)).2.2.1 0 (Nat.le_refl 0)⟩

/-- **C7.** A candidate that does not pass validation is refused: both the
add submit and the update click leave the whole state — record sequence,
edit target and persisted value — exactly as it was. -/
theorem c7_failed_validation_preserves_state (st : AppState) (p : Record)
    (h : ∀ m, validateForm p st.students st.editIndex ≠ .ok (true, m)) :
    submitAddStep st p = st ∧ clickUpdateStep st p = st := by
  constructor
  · rw [submitAddStep]
    split
    · rename_i m heq
      exact absurd heq (h m)
    · rfl
  · rw [clickUpdateStep]
    split
    · rename_i m heq
      exact absurd heq (h m)
    · rfl

/-- Concrete instance of C7: the all-empty candidate fails validation and the
add submit leaves the state unchanged. -/
theorem c7_witness :
    (∀ m, validateForm ⟨"", "", "", ""⟩ twoRecordState.students twoRecordState.editIndex ≠
      Except.ok (true, m)) ∧
    submitAddStep twoRecordState ⟨"", "", "", ""⟩ = twoRecordState := by
  have hv : ∀ m, validateForm ⟨"", "", "", ""⟩ twoRecordState.students twoRecordState.editIndex ≠
      Except.ok (true, m) := by
    intro m hm
    rw [show validateForm ⟨"", "", "", ""⟩ twoRecordState.students twoRecordState.editIndex =
      Except.ok (false, ⟨"Name is required.", "Student ID is required.",
        "Email is required.", "Contact number is required."⟩) from rfl] at hm
    simp at hm
  exact ⟨hv, (c7_failed_validation_preserves_state twoRecordState ⟨"", "", "", ""⟩ hv).1⟩

/-- **C8.** With no edit session active (`editIndex = null`), the replace
operation is a no-op — `updateStudent` returns before touching anything, so
the record sequence and the persisted value are unchanged — and so is the
whole update click. -/
theorem c8_update_without_session_is_noop (st : AppState) (p : Record)
    (h : st.editIndex = none) :
    updateStudent st p = st ∧ clickUpdateStep st p = st := by
  have hu : updateStudent st p = st := by
    rw [updateStudent, h]
  refine ⟨hu, ?_⟩
  rw [clickUpdateStep]
  split
  · exact hu
  · rfl

/-- Concrete instance of C8. -/
theorem c8_witness :
    twoRecordState.editIndex = none ∧ updateStudent twoRecordState annLee = twoRecordState :=
  ⟨rfl, (c8_update_without_session_is_noop twoRecordState annLee rfl).1⟩

/-- **C9, divergence.** The code does not reset the edit session on delete:
from the reachable state editing position 0, the confirmed delete of that
very record leaves `editIndex = 0` pointing at what is now a different
record, instead of transitioning back to idle as the claim states. -/
theorem c9_delete_keeps_stale_edit_target :
    Reachable staleEditState ∧
    staleEditState.students = [some boLi] ∧
    staleEditState.editIndex = some 0 ∧
    staleEditState.editIndex ≠ none := by
  refine ⟨?_, by decide, by decide, by decide⟩
  exact Reachable.next _ (Reachable.next _ (Reachable.next _ (Reachable.next _ Reachable.init)))

/-- **C4.** Validation applies its checks in the fixed source order —
presence, name format, identifier format, email format, contact format then
contact minimum length, identifier uniqueness — stopping at the first failing
check and reporting only that check's message; the presence check alone
reports a "required" message for each empty field and fails as a unit. -/
theorem c4_validation_order (p : Record) (l : List Cell) (e : Option Nat) :
    ((p.name = "" ∨ p.studentId = "" ∨ p.email = "" ∨ p.contact = "") →
      validateForm p l e = .ok (false,
        { nameError := if p.name = "" then "Name is required." else ""
          studentIdError := if p.studentId = "" then "Student ID is required." else ""
          emailError := if p.email = "" then "Email is required." else ""
          contactError := if p.contact = "" then "Contact number is required." else "" })) ∧
    (¬ (p.name = "" ∨ p.studentId = "" ∨ p.email = "" ∨ p.contact = "") →
      ¬ isLettersOnly p.name = true →
      validateForm p l e = .ok (false, { nameError := "Only letters and spaces are allowed." })) ∧
    (¬ (p.name = "" ∨ p.studentId = "" ∨ p.email = "" ∨ p.contact = "") →
      isLettersOnly p.name = true → ¬ isDigitsOnly p.studentId = true →
      validateForm p l e = .ok (false, { studentIdError := "Student ID must contain digits only." })) ∧
    (¬ (p.name = "" ∨ p.studentId = "" ∨ p.email = "" ∨ p.contact = "") →
      isLettersOnly p.name = true → isDigitsOnly p.studentId = true →
      ¬ isValidEmail p.email = true →
      validateForm p l e = .ok (false, { emailError := "Please enter a valid email address." })) ∧
    (¬ (p.name = "" ∨ p.studentId = "" ∨ p.email = "" ∨ p.contact = "") →
      isLettersOnly p.name = true → isDigitsOnly p.studentId = true →
      isValidEmail p.email = true → ¬ isDigitsOnly p.contact = true →
      validateForm p l e = .ok (false, { contactError := "Contact number must contain digits only." })) ∧
    (¬ (p.name = "" ∨ p.studentId = "" ∨ p.email = "" ∨ p.contact = "") →
      isLettersOnly p.name = true → isDigitsOnly p.studentId = true →
      isValidEmail p.email = true → isDigitsOnly p.contact = true →
      ¬ minDigits p.contact 10 = true →
      validateForm p l e = .ok (false, { contactError := "Contact number must have at least 10 digits." })) ∧
    (fieldChecksPass p →
      validateForm p l e =
        match findDuplicate p.studentId e l 0 with
        | .error () => .error ()
        | .ok (some _) => .ok (false, { studentIdError := "This Student ID already exists." })
        | .ok none => .ok (true, {})) := by
  refine ⟨fun h1 => ?_, fun h1 h2 => ?_, fun h1 h2 h3 => ?_, fun h1 h2 h3 h4 => ?_,
    fun h1 h2 h3 h4 h5 => ?_, fun h1 h2 h3 h4 h5 h6 => ?_,
    fun hf => validateForm_fieldChecks p l e hf⟩
  · rw [validateForm, if_pos h1]
  · rw [validateForm, if_neg h1, if_pos h2]
  · rw [validateForm, if_neg h1, if_neg (not_not_intro h2), if_pos h3]
  · rw [validateForm, if_neg h1, if_neg (not_not_intro h2), if_neg (not_not_intro h3),
      if_pos h4]
  · rw [validateForm, if_neg h1, if_neg (not_not_intro h2), if_neg (not_not_intro h3),
      if_neg (not_not_intro h4), if_pos h5]
  · rw [validateForm, if_neg h1, if_neg (not_not_intro h2), if_neg (not_not_intro h3),
      if_neg (not_not_intro h4), if_neg (not_not_intro h5), if_pos h6]

/-- Concrete instance of C4: a malformed name is reported with exactly the
name-format message, and later checks are not reached. -/
theorem c4_witness :
    validateForm ⟨"Ann3", "1001", "a@b.com", "5551234567"⟩ [] none =
      Except.ok (false, { nameError := "Only letters and spaces are allowed." }) :=
  (c4_validation_order ⟨"Ann3", "1001", "a@b.com", "5551234567"⟩ [] none).2.1
    (by decide) (by decide)

/-- **C5.** During an edit session on position `i` of an all-present
collection with distinct identifiers, a candidate passing the field checks
that keeps the edited record's identifier validates successfully — position
`i` is excluded from the duplicate scan — and the commit replaces position
`i` in place and ends the session; a candidate carrying any other record's
identifier is rejected with the duplicate-identifier error. -/
theorem c5_edit_self_excluded (l : List Record) (i : Nat) (hi : i < l.length) (p : Record)
    (hnodup : (l.map Record.studentId).Nodup) (hf : fieldChecksPass p) :
    (p.studentId = (l.get ⟨i, hi⟩).studentId →
      validateForm p (l.map some) (some i) = .ok (true, {}) ∧
      ∀ σ, clickUpdateStep ⟨l.map some, some i, σ⟩ p =
        ⟨(l.map some).set i (some p), none,
          some (saveStudents ((l.map some).set i (some p)))⟩) ∧
    (∀ j (hj : j < l.length), j ≠ i → (l.get ⟨j, hj⟩).studentId = p.studentId →
      validateForm p (l.map some) (some i) =
        .ok (false, { studentIdError := "This Student ID already exists." })) := by
  constructor
  · intro hpid
    have hscan : findDuplicate p.studentId (some i) (l.map some) 0 = .ok none := by
      refine findDuplicate_none_of _ _ _ _ fun j hj => ?_
      have hjl : j < l.length := by simpa using hj
      refine ⟨l.get ⟨j, hjl⟩, by simp [List.getElem_map, List.get_eq_getElem], ?_⟩
      by_cases hij : j = i
      · exact Or.inr (by rw [Nat.zero_add, hij])
      · refine Or.inl fun hc => hij ?_
        have hjm : j < (l.map Record.studentId).length := by simpa using hjl
        have him : i < (l.map Record.studentId).length := by simpa using hi
        have hmap : (l.map Record.studentId)[j] = (l.map Record.studentId)[i] := by
          rw [List.getElem_map, List.getElem_map]
          rw [List.get_eq_getElem] at hpid hc
          rw [hc, hpid]
        exact (hnodup.getElem_inj_iff).mp hmap
    have hval := validateForm_fieldChecks p (l.map some) (some i) hf
    rw [hscan] at hval
    refine ⟨hval, fun σ => ?_⟩
    have hstep : clickUpdateStep ⟨l.map some, some i, σ⟩ p =
        updateStudent ⟨l.map some, some i, σ⟩ p := by
      rw [clickUpdateStep]
      rw [show validateForm p (AppState.mk (l.map some) (some i) σ).students
          (AppState.mk (l.map some) (some i) σ).editIndex = .ok (true, {}) from hval]
    rw [hstep, updateStudent]
    simp only
    rw [jsArraySet, if_pos (by simpa using hi)]
  · intro j hj hjne hjid
    have hall : ∀ c ∈ l.map some, c ≠ none := by
      intro c hc
      rw [List.mem_map] at hc
      obtain ⟨r, _, hr⟩ := hc
      rw [← hr]
      exact fun h => by cases h
    have hex : ∃ j2, ∃ (hj2 : j2 < (l.map some).length), ∃ s, (l.map some)[j2] = some s ∧
        s.studentId = p.studentId ∧ (some i : Option Nat) ≠ some (0 + j2) := by
      refine ⟨j, by simpa using hj, l.get ⟨j, hj⟩,
        by simp [List.getElem_map, List.get_eq_getElem], hjid, ?_⟩
      intro hc
      apply hjne
      have : i = 0 + j := by simpa using hc
      omega
    obtain ⟨idx, hscan⟩ := findDuplicate_finds p.studentId (some i) (l.map some) 0 hall hex
    have hval := validateForm_fieldChecks p (l.map some) (some i) hf
    rw [hscan] at hval
    exact hval

/-- Concrete instance of C5: with the sample two-record collection under edit
at position 0, keeping the identifier validates, while taking the other
record's identifier is rejected as a duplicate. -/
theorem c5_witness :
    validateForm ⟨"Ann B Lee", "1001", "a@b.com", "5551234567"⟩
      ([annLee, boLi].map some) (some 0) = .ok (true, {}) ∧
    validateForm ⟨"Cat Dee", "1002", "c@d.ee", "9999999999"⟩
      ([annLee, boLi].map some) (some 0) =
      .ok (false, { studentIdError := "This Student ID already exists." }) :=
  ⟨((c5_edit_self_excluded [annLee, boLi] 0 (by decide)
      ⟨"Ann B Lee", "1001", "a@b.com", "5551234567"⟩ (by decide) (by decide)).1
      (by decide)).1,
    (c5_edit_self_excluded [annLee, boLi] 0 (by decide)
      ⟨"Cat Dee", "1002", "c@d.ee", "9999999999"⟩ (by decide) (by decide)).2
      1 (by decide) (by decide) (by decide)⟩

/-! ## Helper lemmas: the JSON codec round-trip -/

/-- `skipJsonWs` does not move past a non-whitespace head. -/
theorem skipJsonWs_cons (c : Char) (t : List Char) (h : isJsonWs c = false) :
    skipJsonWs (c :: t) = c :: t := by
  simp [skipJsonWs, List.dropWhile_cons, h]

/-- Parsing one escaped character undoes the escaping, consuming one step of
fuel. -/
theorem parseStringBody_escapeChar (c : Char) (fuel : Nat) (acc rest : List Char) :
    parseStringBody (fuel + 1) acc (escapeChar c ++ rest) =
      parseStringBody fuel (c :: acc) rest := by
  by_cases hlt : c.toNat < 32
  · obtain ⟨n, hn, rfl⟩ : ∃ n, n < 32 ∧ Char.ofNat n = c := ⟨c.toNat, hlt, Char.ofNat_toNat c⟩
    interval_cases n <;> rfl
  · by_cases h1 : c = '"'
    · subst h1
      rfl
    by_cases h2 : c = '\\'
    · subst h2
      rfl
    have hesc : escapeChar c = [c] := by
      rw [escapeChar, if_neg h1, if_neg h2, if_neg (fun he => hlt (by rw [he]; decide)),
        if_neg (fun he => hlt (by rw [he]; decide)), if_neg (fun he => hlt (by rw [he]; decide)),
        if_neg (fun he => hlt (by rw [he]; decide)), if_neg (fun he => hlt (by rw [he]; decide)),
        if_neg hlt]
    rw [hesc, List.singleton_append, parseStringBody, if_neg h1, if_neg h2, if_neg hlt]

/-- Parsing an escaped character run stops at the closing quote and recovers
the original characters, consuming one step of fuel per character plus one
for the quote. -/
theorem parseStringBody_quote (cs : List Char) : ∀ (fuel : Nat) (acc rest : List Char),
    parseStringBody (fuel + cs.length + 1) acc (cs.flatMap escapeChar ++ '"' :: rest) =
      some (⟨acc.reverse ++ cs⟩, rest) := by
  induction cs with
  | nil =>
    intro fuel acc rest
    simp only [List.flatMap_nil, List.nil_append, List.append_nil, List.length_nil,
      Nat.add_zero]
    rw [parseStringBody, if_pos rfl]
  | cons c cs ih =>
    intro fuel acc rest
    rw [List.flatMap_cons, List.append_assoc]
    rw [show fuel + (c :: cs).length + 1 = (fuel + cs.length + 1) + 1 from by
      rw [List.length_cons]; omega]
    rw [parseStringBody_escapeChar, ih]
    simp [List.append_assoc]

/-- `parseStringBody_quote`, with the fuel merely bounded from below. -/
theorem parseStringBody_quote_ge (cs : List Char) (fuel : Nat) (acc rest : List Char)
    (h : cs.length + 1 ≤ fuel) :
    parseStringBody fuel acc (cs.flatMap escapeChar ++ '"' :: rest) =
      some (⟨acc.reverse ++ cs⟩, rest) := by
  obtain ⟨f, rfl⟩ : ∃ f, fuel = f + cs.length + 1 := ⟨fuel - cs.length - 1, by omega⟩
  exact parseStringBody_quote cs f acc rest

/-- Escaping never shrinks a string. -/
theorem length_le_flatMap_escapeChar (cs : List Char) :
    cs.length ≤ (cs.flatMap escapeChar).length := by
  induction cs with
  | nil => simp
  | cons c cs ih =>
    rw [List.flatMap_cons, List.length_append, List.length_cons]
    have h1 : 1 ≤ (escapeChar c).length := by
      rw [escapeChar]
      split_ifs <;> simp
    omega

/-- Parsing a serialized string literal recovers the string. -/
theorem parseValue_quoteString (s : String) (fuel : Nat) (rest : List Char) :
    parseValue (fuel + 1) (quoteString s ++ rest) = some (.str s, rest) := by
  rw [quoteString]
  simp only [List.cons_append, List.append_assoc]
  rw [parseValue]
  rw [skipJsonWs_cons _ _ (by decide)]
  show (parseStringBody ((s.data.flatMap escapeChar ++ ('"' :: rest)).length + 1) []
      (s.data.flatMap escapeChar ++ ('"' :: rest))).map
      (fun p => (Json.str p.1, p.2)) = some (Json.str s, rest)
  rw [parseStringBody_quote_ge _ _ _ _ (by
    have := length_le_flatMap_escapeChar s.data
    rw [List.length_append, List.length_cons]
    omega)]
  rfl

/-- A member followed by anything, re-associated to expose its head quote. -/
theorem memberChars_head (k v : String) (z : List Char) :
    memberChars k v ++ z =
      '"' :: (k.data.flatMap escapeChar ++ ('"' :: (':' :: (quoteString v ++ z)))) := by
  rw [memberChars, quoteString]
  simp [List.append_assoc]

/-- The last `"key":"value"` member of an object, up to the closing brace. -/
theorem parsePairs_last (k v : String) (fuel : Nat) (rest : List Char) :
    parsePairs (fuel + 1 + 1) (memberChars k v ++ '\x7d' :: rest) =
      some ([(k, Json.str v)], rest) := by
  rw [memberChars_head, parsePairs]
  rw [skipJsonWs_cons _ _ (by decide)]
  simp only []
  rw [parseStringBody_quote_ge _ _ _ _ (by
    have := length_le_flatMap_escapeChar k.data
    rw [List.length_append, List.length_cons]
    omega)]
  simp only [Option.some_bind]
  rw [skipJsonWs_cons _ _ (by decide)]
  simp only []
  rw [parseValue_quoteString]
  simp only [Option.some_bind]
  rw [skipJsonWs_cons _ _ (by decide)]
  rfl

/-- A non-final `"key":"value"` member of an object, up to and including the
comma. -/
theorem parsePairs_cons (k v : String) (fuel : Nat) (more : List Char) :
    parsePairs (fuel + 1 + 1) (memberChars k v ++ ',' :: more) =
      (parsePairs (fuel + 1) more).map fun q => ((k, Json.str v) :: q.1, q.2) := by
  rw [memberChars_head, parsePairs]
  rw [skipJsonWs_cons _ _ (by decide)]
  simp only []
  rw [parseStringBody_quote_ge _ _ _ _ (by
    have := length_le_flatMap_escapeChar k.data
    rw [List.length_append, List.length_cons]
    omega)]
  simp only [Option.some_bind]
  rw [skipJsonWs_cons _ _ (by decide)]
  simp only []
  rw [parseValue_quoteString]
  simp only [Option.some_bind]
  rw [skipJsonWs_cons _ _ (by decide)]
  rfl

/-- The four record keys are distinct, so deduplication leaves the parsed
member list unchanged. -/
theorem dedupKeys_record (a b c d : Json) :
    dedupKeys [("name", a), ("studentId", b), ("email", c), ("contact", d)] =
      [("name", a), ("studentId", b), ("email", c), ("contact", d)] := by
  rfl

/-- Parsing a serialized record object recovers its JSON object form. -/
theorem parseValue_record (r : Record) (fuel : Nat) (rest : List Char) :
    parseValue (fuel + 6) (stringifyRecord r ++ rest) = some (recordJson r, rest) := by
  have hshape : stringifyRecord r ++ rest =
      '\x7b' :: (memberChars "name" r.name ++
        ',' :: (memberChars "studentId" r.studentId ++
          ',' :: (memberChars "email" r.email ++
            ',' :: (memberChars "contact" r.contact ++ '\x7d' :: rest)))) := by
    rw [stringifyRecord]
    simp [List.append_assoc]
  rw [hshape]
  rw [show fuel + 6 = (fuel + 5) + 1 from by omega]
  rw [parseValue]
  rw [skipJsonWs_cons _ _ (by decide)]
  simp only []
  rw [memberChars_head "name" r.name]
  rw [skipJsonWs_cons _ _ (by decide)]
  split
  · rename_i heq
    exact absurd heq (by simp)
  rw [← memberChars_head "name" r.name]
  rw [show fuel + 5 = (fuel + 3) + 1 + 1 from by omega]
  rw [parsePairs_cons]
  rw [show fuel + 3 + 1 = (fuel + 2) + 1 + 1 from by omega]
  rw [parsePairs_cons]
  rw [show fuel + 2 + 1 = (fuel + 1) + 1 + 1 from by omega]
  rw [parsePairs_cons]
  rw [parsePairs_last]
  rfl

/-- `parseValue_record`, with the fuel merely bounded from below. -/
theorem parseValue_record_ge (r : Record) (fuel : Nat) (rest : List Char) (h : 6 ≤ fuel) :
    parseValue fuel (stringifyRecord r ++ rest) = some (recordJson r, rest) := by
  obtain ⟨f, rfl⟩ : ∃ f, fuel = f + 6 := ⟨fuel - 6, by omega⟩
  exact parseValue_record r f rest

/-- Parsing the comma-joined serialized records of a nonempty array recovers
them all, up to and including the closing bracket. -/
theorem parseItems_records (R : List Record) : ∀ (r : Record) (fuel : Nat) (rest : List Char),
    parseItems (fuel + 7 * R.length + 7) (joinComma ((r :: R).map stringifyRecord) ++ ']' :: rest) =
      some ((r :: R).map recordJson, rest) := by
  induction R with
  | nil =>
    intro r fuel rest
    rw [List.map_cons, List.map_nil, joinComma]
    rw [show fuel + 7 * ([] : List Record).length + 7 = (fuel + 6) + 1 from by
      rw [List.length_nil]]
    rw [parseItems]
    rw [parseValue_record_ge _ _ _ (by omega)]
    rfl
  | cons r2 R ih =>
    intro r fuel rest
    rw [List.map_cons, List.map_cons, joinComma, List.append_assoc, List.cons_append]
    rw [show fuel + 7 * (r2 :: R).length + 7 = (fuel + 7 * (r2 :: R).length + 6) + 1 from by
      omega]
    rw [parseItems]
    rw [parseValue_record_ge _ _ _ (by omega)]
    simp only [Option.some_bind]
    rw [skipJsonWs_cons _ _ (by decide)]
    simp only []
    rw [show fuel + 7 * (r2 :: R).length + 6 = (fuel + 6) + 7 * R.length + 7 from by
      rw [List.length_cons]; omega]
    rw [← List.map_cons, ih]
    rfl

/-- Parsing a serialized array of records recovers the array. -/
theorem parseValue_savedArray (R : List Record) (fuel : Nat) (rest : List Char) :
    parseValue (fuel + 7 * R.length + 1)
      ('[' :: (joinComma (R.map stringifyRecord) ++ ']' :: rest)) =
      some (Json.arr (R.map recordJson), rest) := by
  cases R with
  | nil =>
    rw [show fuel + 7 * ([] : List Record).length + 1 = fuel + 1 from by
      rw [List.length_nil]]
    rw [List.map_nil, joinComma, List.nil_append, parseValue]
    rw [skipJsonWs_cons _ _ (by decide)]
    rfl
  | cons r R =>
    rw [show fuel + 7 * (r :: R).length + 1 = (fuel + 7 * (r :: R).length) + 1 from by omega]
    rw [parseValue]
    rw [skipJsonWs_cons _ _ (by decide)]
    simp only []
    have hhead : ∃ t, joinComma ((r :: R).map stringifyRecord) ++ ']' :: rest =
        '\x7b' :: t := by
      cases R with
      | nil =>
        rw [List.map_cons, List.map_nil, joinComma, stringifyRecord, List.cons_append]
        exact ⟨_, rfl⟩
      | cons r2 R2 =>
        rw [List.map_cons, List.map_cons, joinComma, stringifyRecord]
        simp only [List.cons_append, List.append_assoc]
        exact ⟨_, rfl⟩
    obtain ⟨t, ht⟩ := hhead
    rw [ht]
    rw [skipJsonWs_cons _ _ (by decide)]
    split
    · rename_i heq
      exact absurd heq (by simp)
    rw [← ht]
    rw [show fuel + 7 * (r :: R).length = fuel + 7 * R.length + 7 from by
      rw [List.length_cons]; omega]
    rw [parseItems_records]
    rfl

/-- A serialized record is at least eight characters long. -/
theorem stringifyRecord_length_ge (r : Record) : 8 ≤ (stringifyRecord r).length := by
  simp only [stringifyRecord, memberChars, quoteString, List.length_cons, List.length_append,
    List.length_singleton]
  omega

/-- A comma-join of blocks of length at least eight is long enough to pay for
seven fuel steps per block. -/
theorem joinComma_length_ge : ∀ (xs : List (List Char)),
    (∀ x ∈ xs, 8 ≤ x.length) → 8 * xs.length ≤ (joinComma xs).length + 1
  | [], _ => by simp [joinComma]
  | [x], h => by
    have h1 := h x (by simp)
    simp only [joinComma, List.length_singleton]
    omega
  | x :: y :: ys, h => by
    have h1 := h x (by simp)
    have h2 := joinComma_length_ge (y :: ys) fun z hz => h z (by simp [hz])
    simp only [joinComma, List.length_append, List.length_cons] at h2 ⊢
    omega

/-- `JSON.parse` undoes `JSON.stringify` on a saved array of records: the
fuel `2·length + 2` covers the seven steps per record, and nothing trails
the array. -/
theorem jsonParse_saveStudents (R : List Record) :
    jsonParse (saveStudents (R.map some)) = some (Json.arr (R.map recordJson)) := by
  have hdata : (saveStudents (R.map some)).data =
      '[' :: (joinComma (R.map stringifyRecord) ++ ']' :: []) := by
    simp only [saveStudents, List.map_map]
    rfl
  rw [jsonParse, hdata]
  have hall : ∀ x ∈ R.map stringifyRecord, 8 ≤ x.length := by
    intro x hx
    obtain ⟨r, _, rfl⟩ := List.mem_map.mp hx
    exact stringifyRecord_length_ge r
  have hj := joinComma_length_ge _ hall
  rw [List.length_map] at hj
  have hb : ∃ f, 2 * ('[' :: (joinComma (R.map stringifyRecord) ++ ']' :: [])).length + 2 =
      f + 7 * R.length + 1 := by
    refine ⟨2 * ('[' :: (joinComma (R.map stringifyRecord) ++ ']' :: [])).length + 2 -
      7 * R.length - 1, ?_⟩
    simp only [List.length_cons, List.length_append] at hj ⊢
    omega
  obtain ⟨f, hf⟩ := hb
  rw [hf, parseValue_savedArray]
  rfl

/-- Reading the JSON array form back yields the original record sequence. -/
theorem decodeStudents_recordJson (R : List Record) :
    decodeStudents (Json.arr (R.map recordJson)) = some R := by
  rw [decodeStudents]
  induction R with
  | nil => rfl
  | cons r R ih =>
    rw [List.map_cons, List.mapM_cons]
    rw [show decodeRecord (recordJson r) = some r from rfl]
    rw [ih]
    rfl

/-- **C2.** Persisting a sequence of well-formed records with `saveStudents`
and reading it back with `loadStudents` returns the same sequence in the same
order: the loaded value is exactly the records' JSON array form, and decoding
it gives back the records. -/
theorem c2_save_load_roundtrip (R : List Record)
    (hw : ∀ r ∈ R, r.name ≠ "" ∧ r.studentId ≠ "" ∧ r.email ≠ "" ∧ r.contact ≠ "") :
    loadStudents (some (saveStudents (R.map some))) = Json.arr (R.map recordJson) ∧
    decodeStudents (loadStudents (some (saveStudents (R.map some)))) = some R := by
  have hl : loadStudents (some (saveStudents (R.map some))) = Json.arr (R.map recordJson) := by
    rw [loadStudents, jsonParse_saveStudents]
    rfl
  exact ⟨hl, by rw [hl]; exact decodeStudents_recordJson R⟩

/-- Concrete instance of C2: the sample record round-trips through the
persisted JSON string. -/
theorem c2_witness :
    (∀ r ∈ [annLee], r.name ≠ "" ∧ r.studentId ≠ "" ∧ r.email ≠ "" ∧ r.contact ≠ "") ∧
    decodeStudents (loadStudents (some (saveStudents ([annLee].map some)))) = some [annLee] :=
  ⟨by decide, (c2_save_load_roundtrip [annLee] (by decide)).2⟩

/-- **C10, counterexample.** The stored text `"[]"` parses to a truthy value
(the empty array), yet `loadStudents` returns the empty sequence — so "load
returns the empty sequence exactly when the stored value is absent,
unparsable, or falsy" fails in the only-if direction at this input. -/
theorem c10_counterexample :
    loadStudents (some "[]") = Json.arr [] ∧
    ¬ ((some "[]" : Option String) = none ∨ jsonParse "[]" = none ∨
      ∃ v, jsonParse "[]" = some v ∧ jsTruthy v = false) := by
  constructor
  · rfl
  · intro h
    rcases h with h | h | ⟨v, hv, ht⟩
    · cases h
    · rw [show jsonParse "[]" = some (Json.arr []) from rfl] at h
      cases h
    · rw [show jsonParse "[]" = some (Json.arr []) from rfl] at hv
      cases hv
      exact absurd ht (by decide)

/-- **C10, amended.** `loadStudents` returns the empty sequence when the
stored value is absent, fails to parse, or parses to a falsy value — and
also when the (truthy) parsed value is itself the empty array; any other
truthy parsed value is returned unchanged. -/
theorem c10_amended (s : String) :
    (loadStudents (some s) = Json.arr [] ↔
      (jsonParse s = none ∨
        ∃ v, jsonParse s = some v ∧ (jsTruthy v = false ∨ v = Json.arr []))) ∧
    (∀ v, jsonParse s = some v → jsTruthy v = true → loadStudents (some s) = v) ∧
    loadStudents none = Json.arr [] := by
  refine ⟨?_, ?_, rfl⟩
  · rw [loadStudents]
    cases hp : jsonParse s with
    | none =>
      exact ⟨fun _ => Or.inl rfl, fun _ => rfl⟩
    | some v =>
      show (if jsTruthy v then v else Json.arr []) = Json.arr [] ↔ _
      by_cases ht : jsTruthy v = true
      · rw [if_pos ht]
        constructor
        · intro h
          exact Or.inr ⟨v, rfl, Or.inr h⟩
        · intro h
          rcases h with h | ⟨v2, hv2, h2⟩
          · cases h
          · cases hv2
            rcases h2 with h2 | h2
            · rw [ht] at h2
              cases h2
            · exact h2
      · rw [if_neg ht]
        refine ⟨fun _ => Or.inr ⟨v, rfl, Or.inl ?_⟩, fun _ => rfl⟩
        simpa using ht
  · intro v hv htr
    rw [loadStudents, hv]
    show (if jsTruthy v then v else Json.arr []) = v
    rw [if_pos htr]

/-- Concrete instance of the amended C10: a truthy parsed value is returned
unchanged. -/
theorem c10_witness : loadStudents (some "true") = Json.bool true :=
  (c10_amended "true").2.1 (Json.bool true) rfl rfl

end StudentReg
